import Mathlib

/-!
Verification of the vocabulary-management backend
(`vocab_dictionary_server`): a shallow embedding of the request handlers in
`src/unnamed/part_001` (Express routes over the "Words" Mongo collection),
the two schema revisions in `src/model/Word.js`, and the AI-response parser
`cleanAndConvertJsonString` in `src/unnamed/part_002`, together with proofs
about them.

Modelling conventions:
* the document store is a list of records plus an id-assignment counter;
  Mongo `_id`s are modelled as natural numbers (the numeric value of the
  24-hex-digit ObjectId), `createdAt` as a natural-number timestamp;
* JavaScript built-ins used by the handlers (`toLowerCase`, `trim`,
  `parseInt`, `JSON.parse`, regular-expression matching) are modelled
  explicitly; case conversion is faithful on the ASCII range (both
  `Char.toLower` and JS `toLowerCase` lower only basic latin letters there);
* machine integers: the counters are JS numbers used only with ±1 deltas,
  modelled as `Int`;
* each handler is a pure function from the store and the request to the
  response and the new store; `getWordsByType` additionally returns the
  trace of store operations it performed.
-/

namespace VocabServer

/-! ## Data model -/

/-- A persisted Word document: the fields of `model/Word.js` that the
request handlers read or write.  The free-text enrichment fields
(pronunciation, meaning, synonyms, …) are never inspected by any handler
and are omitted. -/
structure Word where
  id : Nat
  word : String
  no_of_times_opened : Int
  no_of_times_revised : Int
  createdAt : Nat
deriving DecidableEq, Repr

/-- The "Words" collection plus the id-assignment state of the store. -/
structure DB where
  words : List Word
  nextId : Nat
deriving DecidableEq, Repr

/-- A candidate entry of a `postWords` batch: the handler reads only
`word`; the optional counter fields feed the schema defaults on insert. -/
structure Cand where
  word : String
  openedOpt : Option Int := none
  revisedOpt : Option Int := none
deriving DecidableEq, Repr

/-! ## JavaScript built-ins used by the handlers -/

/-- Model of JavaScript `String.prototype.toLowerCase`: lower-case each
character.  `Char.toLower` lowers exactly the basic latin letters, which is
also what JS does on the ASCII range. -/
def jsToLower (s : String) : String :=
  ⟨s.data.map Char.toLower⟩

/-- Characters that JavaScript regular expressions treat specially.  The
`postWords` handler interpolates each lowercased candidate word into
`new RegExp("^" + name + "$", "i")` without escaping, so candidate words
containing these characters are interpreted as patterns, not literal
text. -/
def regexSpecial (c : Char) : Bool :=
  c == '.' || c == '*' || c == '+' || c == '?' || c == '^' || c == '$' ||
  c == '(' || c == ')' || c == '[' || c == ']' || c == '\x7b' ||
  c == '\x7d' || c == '|' || c == '\\'

/-- A string free of regular-expression metacharacters: on such words the
pattern built by `postWords` means plain case-insensitive equality. -/
def regexPlainStr (s : String) : Bool :=
  s.data.all fun c => !regexSpecial c

/-- Anchored case-insensitive matching for the fragment of JavaScript
regular expressions this development models: `.` matches any single
character and every other pattern character matches case-insensitively as
a literal.  This is exactly the behaviour of `new RegExp("^"+p+"$", "i")`
for patterns `p` whose characters are either `.` or non-special; theorems
that quantify over arbitrary batches restrict candidate words to
regex-plain characters (`regexPlainStr`), where the model is faithful. -/
def matchAnchoredCI : List Char → List Char → Bool
  | [], [] => true
  | [], _ :: _ => false
  | _ :: _, [] => false
  | p :: ps, c :: cs =>
    (p == '.' || p.toLower == c.toLower) && matchAnchoredCI ps cs

/-! ## postWords (src/unnamed/part_001, lines 220-268) -/

/-- Record construction under the first schema revision of
`model/Word.js` (the revision carrying both counters): absent
`no_of_times_opened` defaults to 5, absent `no_of_times_revised` to 0. -/
def createWordRev1 (c : Cand) (id createdAt : Nat) : Word :=
  { id := id
    word := c.word
    no_of_times_opened := c.openedOpt.getD 5
    no_of_times_revised := c.revisedOpt.getD 0
    createdAt := createdAt }

/-- The documents `Word.insertMany` builds for a candidate list, with
consecutive fresh ids and the insertion timestamp. -/
def mkSaved (now : Nat) : Nat → List Cand → List Word
  | _, [] => []
  | nid, c :: cs => createWordRev1 c nid now :: mkSaved now (nid + 1) cs

/-- Model of insertMany: append one record per candidate. -/
def insertMany (db : DB) (now : Nat) (cs : List Cand) : List Word × DB :=
  let saved := mkSaved now db.nextId cs
  (saved, { words := db.words ++ saved, nextId := db.nextId + cs.length })

/-- Responses of the `postWords` handler.  The all-duplicates failure body
carries only a message — the handler does not attach the skipped names. -/
inductive PostWordsRes where
  | invalidInput (message : String)
  | allDuplicates (message : String)
  | created (message : String) (addedWords : List Word)
      (skippedWords : List String)
deriving DecidableEq, Repr

/-- HTTP status of each `postWords` response. -/
def postStatus : PostWordsRes → Nat
  | .invalidInput _ => 400
  | .allDuplicates _ => 400
  | .created _ _ _ => 201

/-- The `app.post("/api/v1/postWords")` handler.  Existing records are
found with `Word.find` over one `$in` list of anchored case-insensitive
regexes built from the lowercased candidate words; duplicates are then
filtered out by comparing the lowercased word of each candidate against the
lowercased names of the matched records; the remaining candidates are
inserted in one `insertMany`. -/
def postWords (db : DB) (now : Nat) (words : List Cand) :
    PostWordsRes × DB :=
  if words.isEmpty then
    (.invalidInput "Please provide an array of words.", db)
  else
    let wordNamesLower := words.map fun w => jsToLower w.word
    let existingWords := db.words.filter fun r =>
      wordNamesLower.any fun name => matchAnchoredCI name.data r.word.data
    let existingWordNamesLower := existingWords.map fun w => jsToLower w.word
    let uniqueWords := words.filter fun w =>
      !decide (jsToLower w.word ∈ existingWordNamesLower)
    if uniqueWords.isEmpty then
      (.allDuplicates
        "All provided words already exist in the database (case-insensitive check).",
        db)
    else
      let (savedWords, db') := insertMany db now uniqueWords
      (.created (toString savedWords.length ++ " words added successfully.")
        savedWords existingWordNamesLower, db')

/-! ## getWordsByType (src/unnamed/part_001, lines 466-601) -/

/-- Digit value of a decimal or hexadecimal digit character. -/
def hexDigitVal (c : Char) : Nat :=
  if c.isDigit then c.toNat - '0'.toNat
  else c.toLower.toNat - 'a'.toNat + 10

/-- Is the character a hexadecimal digit (either case)? -/
def isHexDigitB (c : Char) : Bool :=
  c.isDigit || ('a' ≤ c.toLower && c.toLower ≤ 'f')

/-- Value of a digit run in the given base. -/
def digitsVal (base : Nat) (ds : List Char) : Nat :=
  ds.foldl (fun acc c => acc * base + hexDigitVal c) 0

/-- Model of JavaScript `parseInt(string)` with no radix argument: skip
leading whitespace, read an optional sign, then either a `0x`/`0X`-tagged
run of hexadecimal digits or a run of decimal digits (stopping at the
first non-digit); `none` models NaN, returned when no digit is read. -/
def jsParseInt (s : String) : Option Int :=
  let cs := s.data.dropWhile Char.isWhitespace
  let signed : Int × List Char :=
    match cs with
    | '-' :: rest => (-1, rest)
    | '+' :: rest => (1, rest)
    | _ => (1, cs)
  let sign := signed.1
  let body := signed.2
  let dec : Option Int :=
    let ds := body.takeWhile Char.isDigit
    if ds.isEmpty then none else some (sign * Int.ofNat (digitsVal 10 ds))
  match body with
  | '0' :: x :: rest =>
    if x == 'x' || x == 'X' then
      let ds := rest.takeWhile isHexDigitB
      if ds.isEmpty then none else some (sign * Int.ofNat (digitsVal 16 ds))
    else dec
  | _ => dec

/-- Model of the idiom parseInt(q) || d: an absent parameter parses to
NaN, and both NaN and 0 are falsy, so they fall back to the default. -/
def parseIntOr (q : Option String) (d : Int) : Int :=
  match q with
  | none => d
  | some s =>
    match jsParseInt s with
    | none => d
    | some n => if n == 0 then d else n

/-- Model of the idiom req.query.type || "normal": absent and empty
strings are falsy. -/
def typeOr (q : Option String) : String :=
  match q with
  | none => "normal"
  | some s => if s == "" then "normal" else s

/-- Primary sort field of a supported sort type. -/
inductive SField where
  | revised
  | opened
  | created
  | text
deriving DecidableEq, Repr

/-- The `switch (type.toLowerCase())` of the handler: primary field,
direction (`true` = ascending) and the human description; the secondary
`_id` key always shares the primary direction.  `none` is the `default`
case. -/
def sortSwitch (t : String) : Option ((SField × Bool) × String) :=
  match t with
  | "least_revised" =>
    some ((.revised, true), "Words sorted by least revised (ascending)")
  | "most_difficult" =>
    some ((.opened, false), "Words sorted by most difficult (most opened)")
  | "normal" =>
    some ((.revised, true),
      "Words sorted in normal sequence (revised count ascending)")
  | "most_revised" =>
    some ((.revised, false), "Words sorted by most revised (descending)")
  | "least_opened" =>
    some ((.opened, true), "Words sorted by least opened (easiest words)")
  | "newest_first" =>
    some ((.created, false), "Words sorted by newest first")
  | "oldest_first" =>
    some ((.created, true), "Words sorted by oldest first")
  | "alphabetical" =>
    some ((.text, true), "Words sorted alphabetically (A to Z)")
  | "reverse_alphabetical" =>
    some ((.text, false), "Words sorted reverse alphabetically (Z to A)")
  | _ => none

/-- Comparator for one Mongo sort criterion: primary key with direction,
`_id` as secondary key in the same direction. -/
def lexLe {κ : Type} [LinearOrder κ] (k : Word → κ) :
    Bool → Word → Word → Bool
  | true, a, b =>
    decide (k a < k b) || (decide (k a = k b) && decide (a.id ≤ b.id))
  | false, a, b =>
    decide (k b < k a) || (decide (k b = k a) && decide (b.id ≤ a.id))

/-- Strict lexicographic order on character lists by code point — the
order the store applies to string keys (UTF-8 byte order coincides with
code-point order). -/
def listLtb : List Char → List Char → Bool
  | [], [] => false
  | [], _ :: _ => true
  | _ :: _, [] => false
  | a :: as, b :: bs =>
    decide (a.toNat < b.toNat) || (a == b && listLtb as bs)

/-- Strict code-point order on strings. -/
def strLtb (a b : String) : Bool :=
  listLtb a.data b.data

/-- The word-text comparator: primary key the word text in the given
direction, `_id` as secondary key in the same direction. -/
def textLe : Bool → Word → Word → Bool
  | true, a, b =>
    strLtb a.word b.word || (a.word == b.word && decide (a.id ≤ b.id))
  | false, a, b =>
    strLtb b.word a.word || (b.word == a.word && decide (b.id ≤ a.id))

/-- The comparator realising each sort criterion of the switch. -/
def sortLe : SField → Bool → Word → Word → Bool
  | .revised, asc => lexLe (fun w => w.no_of_times_revised) asc
  | .opened, asc => lexLe (fun w => w.no_of_times_opened) asc
  | .created, asc => lexLe (fun w => w.createdAt) asc
  | .text, asc => textLe asc

/-- Store operations, for tracing which accesses a handler performs. -/
inductive StoreOp where
  | countDocs
  | findScan
  | insert
  | update
deriving DecidableEq, Repr

/-- Is the operation a write? -/
def isWriteOp : StoreOp → Bool
  | .insert => true
  | .update => true
  | _ => false

/-- Responses of the `getWordsByType` handler. -/
inductive GWBTRes where
  | invalidPagination (message : String)
  | unsupportedType (message : String)
  | ok (totalCount totalPages : Nat) (currentPage limit : Int)
      (type description : String) (wordsOut : List Word)
deriving DecidableEq, Repr

/-- HTTP status of each `getWordsByType` response. -/
def gwbtStatus : GWBTRes → Nat
  | .invalidPagination _ => 400
  | .unsupportedType _ => 400
  | .ok _ _ _ _ _ _ _ => 200

/-- The page of records a response carries (empty on failure). -/
def GWBTRes.wordsOf : GWBTRes → List Word
  | .ok _ _ _ _ _ _ ws => ws
  | _ => []

/-- The message of the default case, listing the valid tokens. -/
def invalidTypeMsg : String :=
  "Invalid type. Supported types: least_revised, most_difficult, normal, most_revised, least_opened, newest_first, oldest_first, alphabetical, reverse_alphabetical"

/-- The enumerated sort-type vocabulary. -/
def validTypeTokens : List String :=
  ["least_revised", "most_difficult", "normal", "most_revised",
   "least_opened", "newest_first", "oldest_first", "alphabetical",
   "reverse_alphabetical"]

/-- Does `needle` occur as a contiguous substring of `hay`? -/
def containsSubstr (hay needle : String) : Bool :=
  hay.data.tails.any fun t => needle.data.isPrefixOf t

/-- The `app.get("/api/v1/getWordsByType")` handler.  Parses pagination
with `parseInt(..) || default`, validates it, reads the record count, maps
the type token through the sort switch, and returns one sorted page.
Alongside the response it returns the trace of store operations, in order:
pagination failures return before any store access, the unsupported-type
failure happens after `countDocuments`, and the success path additionally
runs the sorted `find` scan. -/
def getWordsByType (db : DB) (limitQ pageQ typeQ : Option String) :
    GWBTRes × List StoreOp :=
  let limit : Int := parseIntOr limitQ 20
  let page : Int := parseIntOr pageQ 1
  let type := typeOr typeQ
  let skip : Int := (page - 1) * limit
  if limit < 1 ∨ limit > 100 then
    (.invalidPagination "Limit must be between 1 and 100", [])
  else if page < 1 then
    (.invalidPagination "Page must be greater than 0", [])
  else
    let totalCount := db.words.length
    let totalPages := (totalCount + (limit.toNat - 1)) / limit.toNat
    match sortSwitch (jsToLower type) with
    | none => (.unsupportedType invalidTypeMsg, [.countDocs])
    | some ((f, asc), description) =>
      let sorted := db.words.insertionSort fun a b => sortLe f asc a b = true
      let out := (sorted.drop skip.toNat).take limit.toNat
      (.ok totalCount totalPages page limit type description out,
        [.countDocs, .findScan])

/-! ## Counter mutators (src/unnamed/part_001: increase_open_count lines
330-395, decrease_open_count lines 398-463, increase_revision_count lines
604-670) -/

/-- Model of mongoose ObjectId validation for string input: a 24-character
hexadecimal string, or a 12-character string supplying the 12 ObjectId
bytes (modelled for code points below 256; longer code points change the
byte length and are rejected, which the handler reports with the same
400 "Invalid word ID format" that an invalid-format id receives). -/
def isValidObjectId (s : String) : Bool :=
  (s.length == 24 && s.data.all isHexDigitB) ||
  (s.length == 12 && s.data.all fun c => c.toNat < 256)

/-- Numeric value of the ObjectId a valid id string denotes: the value of
the 24 hex digits, or of the 12 bytes.  Both forms of the same ObjectId
agree. -/
def oidVal (s : String) : Nat :=
  if s.length == 24 then digitsVal 16 s.data
  else s.data.foldl (fun acc c => acc * 256 + c.toNat) 0

/-- Model of findByIdAndUpdate with an increment and new set: update the first
record carrying the id and return the post-update record. -/
def updateFirst (ws : List Word) (oid : Nat) (f : Word → Word) :
    Option (Word × List Word) :=
  match ws with
  | [] => none
  | w :: rest =>
    if w.id == oid then
      some (f w, f w :: rest)
    else
      match updateFirst rest oid f with
      | none => none
      | some (u, rest') => some (u, w :: rest')

/-- Responses of the three counter-mutation handlers. -/
inductive CounterRes where
  | missingId (message : String)
  | invalidId (message : String)
  | notFound (message : String)
  | okOpen (wordId : Nat) (word : String) (no_of_times_opened : Int)
  | okRevision (wordId : Nat) (word : String)
      (no_of_times_revised no_of_times_opened : Int)
deriving DecidableEq, Repr

/-- HTTP status of each counter-mutation response. -/
def counterStatus : CounterRes → Nat
  | .missingId _ => 400
  | .invalidId _ => 400
  | .notFound _ => 404
  | .okOpen _ _ _ => 200
  | .okRevision _ _ _ _ => 200

/-- Common body of the three counter-mutation handlers: reject a falsy id,
reject an id `ObjectId.isValid` refuses, 404 when no record matches,
otherwise apply the `$inc` and build the response from the post-update
record. -/
def counterMutate (db : DB) (idQ : Option String) (inc : Word → Word)
    (mk : Word → CounterRes) : CounterRes × DB :=
  match idQ with
  | none => (.missingId "Word ID is required", db)
  | some s =>
    if s == "" then (.missingId "Word ID is required", db)
    else if !isValidObjectId s then (.invalidId "Invalid word ID format", db)
    else
      match updateFirst db.words (oidVal s) inc with
      | none => (.notFound "Word not found", db)
      | some (u, ws') => (mk u, { db with words := ws' })

/-- The `app.post("/api/v1/increase_open_count")` handler. -/
def increase_open_count (db : DB) (idQ : Option String) : CounterRes × DB :=
  counterMutate db idQ
    (fun w => { w with no_of_times_opened := w.no_of_times_opened + 1 })
    (fun u => .okOpen u.id u.word u.no_of_times_opened)

/-- The `app.post("/api/v1/decrease_open_count")` handler: the `$inc` is
−1 and no lower bound is enforced. -/
def decrease_open_count (db : DB) (idQ : Option String) : CounterRes × DB :=
  counterMutate db idQ
    (fun w => { w with no_of_times_opened := w.no_of_times_opened - 1 })
    (fun u => .okOpen u.id u.word u.no_of_times_opened)

/-- The `app.post("/api/v1/increase_revision_count")` handler. -/
def increase_revision_count (db : DB) (idQ : Option String) :
    CounterRes × DB :=
  counterMutate db idQ
    (fun w => { w with no_of_times_revised := w.no_of_times_revised + 1 })
    (fun u => .okRevision u.id u.word u.no_of_times_revised
      u.no_of_times_opened)

/-! ## The second schema revision of model/Word.js -/

/-- A record of the second schema revision, which declares
`no_of_times_opened` (default 0) but no `no_of_times_revised` field at
all. -/
structure WordRev2 where
  id : Nat
  word : String
  no_of_times_opened : Int
  createdAt : Nat
deriving DecidableEq, Repr

/-- Record construction under the second schema revision: absent
`no_of_times_opened` defaults to 0. -/
def createWordRev2 (c : Cand) (id createdAt : Nat) : WordRev2 :=
  { id := id
    word := c.word
    no_of_times_opened := c.openedOpt.getD 0
    createdAt := createdAt }

/-! ## The AI-response parser cleanAndConvertJsonString
(src/unnamed/part_002, lines 725-747) -/

/-- JSON values as produced by `JSON.parse`.  Numbers keep their source
lexeme: the enrichment pipeline never inspects numeric values, so the
model does not commit to floating-point semantics. -/
inductive Json where
  | null
  | bool (b : Bool)
  | num (lexeme : String)
  | str (s : String)
  | arr (elems : List Json)
  | obj (fields : List (String × Json))

/-- The whitespace `JSON.parse` skips between tokens. -/
def jsonWs (c : Char) : Bool :=
  c == ' ' || c == '\t' || c == '\n' || c == '\r'

/-- Parse the remainder of a JSON string literal, after the opening
quote; returns the decoded characters and the input after the closing
quote.  (`\uXXXX` escapes decode to the code point; surrogate pairs are
not recombined, which no theorem below exercises.) -/
def parseJsonString : Nat → List Char → Option (List Char × List Char)
  | 0, _ => none
  | _, [] => none
  | fuel + 1, c :: cs =>
    if c == '"' then some ([], cs)
    else if c == '\\' then
      match cs with
      | [] => none
      | e :: cs' =>
        let dec : Option (Char × List Char) :=
          if e == '"' then some ('"', cs')
          else if e == '\\' then some ('\\', cs')
          else if e == '/' then some ('/', cs')
          else if e == 'b' then some ('\x08', cs')
          else if e == 'f' then some ('\x0c', cs')
          else if e == 'n' then some ('\n', cs')
          else if e == 'r' then some ('\r', cs')
          else if e == 't' then some ('\t', cs')
          else if e == 'u' then
            match cs' with
            | h1 :: h2 :: h3 :: h4 :: rest =>
              if isHexDigitB h1 && isHexDigitB h2 && isHexDigitB h3 &&
                  isHexDigitB h4 then
                some (Char.ofNat (digitsVal 16 [h1, h2, h3, h4]), rest)
              else none
            | _ => none
          else none
        match dec with
        | none => none
        | some (d, rest) =>
          match parseJsonString fuel rest with
          | none => none
          | some (tail, rem) => some (d :: tail, rem)
    else if c.toNat < 32 then none
    else
      match parseJsonString fuel cs with
      | none => none
      | some (tail, rem) => some (c :: tail, rem)

/-- Parse a JSON number at the head of the input, returning its lexeme
and the rest: `-? (0 | [1-9][0-9]*) (\.[0-9]+)? ([eE][+-]?[0-9]+)?`. -/
def parseJsonNumber (cs : List Char) : Option (List Char × List Char) :=
  let neg : List Char × List Char :=
    match cs with
    | '-' :: r => (['-'], r)
    | _ => ([], cs)
  let intPart := neg.2.takeWhile Char.isDigit
  if intPart.isEmpty then none
  else if intPart.length > 1 && intPart.headD ' ' == '0' then none
  else
    let r1 := neg.2.drop intPart.length
    let fracRes : Option (List Char × List Char) :=
      match r1 with
      | '.' :: r2 =>
        let ds := r2.takeWhile Char.isDigit
        if ds.isEmpty then none else some ('.' :: ds, r2.drop ds.length)
      | _ => some ([], r1)
    match fracRes with
    | none => none
    | some (fracChars, r3) =>
      let expRes : Option (List Char × List Char) :=
        match r3 with
        | e :: r4 =>
          if e == 'e' || e == 'E' then
            let signed : List Char × List Char :=
              match r4 with
              | '+' :: r5 => (['+'], r5)
              | '-' :: r5 => (['-'], r5)
              | _ => ([], r4)
            let ds := signed.2.takeWhile Char.isDigit
            if ds.isEmpty then none
            else some (e :: signed.1 ++ ds, signed.2.drop ds.length)
          else some ([], r3)
        | [] => some ([], r3)
      match expRes with
      | none => none
      | some (expChars, r6) =>
        some (neg.1 ++ intPart ++ fracChars ++ expChars, r6)

/-- Does the input start with the given keyword? Returns the rest. -/
def parseLit (kw : List Char) (cs : List Char) : Option (List Char) :=
  if kw.isPrefixOf cs then some (cs.drop kw.length) else none

mutual

/-- Parse one JSON value at the head of the input (leading whitespace
already skipped). -/
def parseJsonValue : Nat → List Char → Option (Json × List Char)
  | 0, _ => none
  | _, [] => none
  | fuel + 1, c :: cs =>
    if c == '"' then
      match parseJsonString (cs.length + 1) cs with
      | none => none
      | some (chars, rest) => some (.str ⟨chars⟩, rest)
    else if c == '[' then
      let cs' := cs.dropWhile jsonWs
      match cs' with
      | ']' :: rest => some (.arr [], rest)
      | _ =>
        match parseJsonArrayElems fuel cs' with
        | none => none
        | some (elems, rest) => some (.arr elems, rest)
    else if c == '\x7b' then
      let cs' := cs.dropWhile jsonWs
      match cs' with
      | '\x7d' :: rest => some (.obj [], rest)
      | _ =>
        match parseJsonObjFields fuel cs' with
        | none => none
        | some (fields, rest) => some (.obj fields, rest)
    else if c == 't' then
      match parseLit ['t', 'r', 'u', 'e'] (c :: cs) with
      | none => none
      | some rest => some (.bool true, rest)
    else if c == 'f' then
      match parseLit ['f', 'a', 'l', 's', 'e'] (c :: cs) with
      | none => none
      | some rest => some (.bool false, rest)
    else if c == 'n' then
      match parseLit ['n', 'u', 'l', 'l'] (c :: cs) with
      | none => none
      | some rest => some (.null, rest)
    else
      match parseJsonNumber (c :: cs) with
      | none => none
      | some (lexeme, rest) => some (.num ⟨lexeme⟩, rest)

/-- Parse the comma-separated elements of a non-empty JSON array,
consuming the closing bracket. -/
def parseJsonArrayElems : Nat → List Char → Option (List Json × List Char)
  | 0, _ => none
  | fuel + 1, cs =>
    match parseJsonValue fuel cs with
    | none => none
    | some (v, rest) =>
      match rest.dropWhile jsonWs with
      | ']' :: rest' => some ([v], rest')
      | ',' :: rest' =>
        match parseJsonArrayElems fuel (rest'.dropWhile jsonWs) with
        | none => none
        | some (vs, rest'') => some (v :: vs, rest'')
      | _ => none

/-- Parse the comma-separated members of a non-empty JSON object,
consuming the closing brace. -/
def parseJsonObjFields : Nat →
    List Char → Option (List (String × Json) × List Char)
  | 0, _ => none
  | fuel + 1, cs =>
    match cs with
    | '"' :: cs' =>
      match parseJsonString (cs'.length + 1) cs' with
      | none => none
      | some (key, rest) =>
        match rest.dropWhile jsonWs with
        | ':' :: rest' =>
          match parseJsonValue fuel (rest'.dropWhile jsonWs) with
          | none => none
          | some (v, rest'') =>
            match rest''.dropWhile jsonWs with
            | '\x7d' :: rest3 => some ([(⟨key⟩, v)], rest3)
            | ',' :: rest3 =>
              match parseJsonObjFields fuel (rest3.dropWhile jsonWs) with
              | none => none
              | some (fs, rest4) => some ((⟨key⟩, v) :: fs, rest4)
            | _ => none
        | _ => none
    | _ => none

end

/-- Model of `JSON.parse`: parse one value surrounded by optional
whitespace; the whole input must be consumed.  The fuel bounds the
recursion depth and exceeds any depth a terminating parse can reach. -/
def jsonParse (s : String) : Option Json :=
  let cs := s.data.dropWhile jsonWs
  match parseJsonValue (2 * cs.length + 8) cs with
  | none => none
  | some (v, rest) =>
    if (rest.dropWhile jsonWs).isEmpty then some v else none

/-- Model of `String.prototype.trim` on character lists. -/
def jsTrim (cs : List Char) : List Char :=
  ((cs.dropWhile Char.isWhitespace).reverse.dropWhile
    Char.isWhitespace).reverse

/-- Does the string start with the seven characters of a json-tagged
fence — the only leading fence `/^```json\s*/i` removes?  The backticks
are literal; the tag is case-insensitive. -/
def hasJsonFenceStart (cs : List Char) : Bool :=
  match cs with
  | '`' :: '`' :: '`' :: j :: s :: o :: n :: _ =>
    j.toLower == 'j' && s.toLower == 's' && o.toLower == 'o' &&
    n.toLower == 'n'
  | _ => false

/-- Model of the first replace, with pattern caret-backtick-backtick-
backtick-json-whitespace (case-insensitive): strip the tagged fence and the
whitespace after it.  A bare leading ``` without the tag is left alone. -/
def stripLeadFence (cs : List Char) : List Char :=
  if hasJsonFenceStart cs then (cs.drop 7).dropWhile Char.isWhitespace
  else cs

/-- Model of the second replace, whose pattern anchors three backticks at
the end of the string (in JavaScript the anchor without the multiline flag
matches only at the very end). -/
def stripTrailFence (cs : List Char) : List Char :=
  match cs.reverse with
  | '`' :: '`' :: '`' :: r => r.reverse
  | _ => cs

/-- Does the string end in three backticks? -/
def endsWithTicks (cs : List Char) : Bool :=
  match cs.reverse with
  | '`' :: '`' :: '`' :: _ => true
  | _ => false

/-- The cleanup pipeline of `cleanAndConvertJsonString`: trim, strip the
tagged leading fence, strip the trailing fence, trim again. -/
def cleanedString (s : String) : String :=
  ⟨jsTrim (stripTrailFence (stripLeadFence (jsTrim s.data)))⟩

/-- The function cleanAndConvertJsonString: clean the raw model output, parse it,
and return the parsed array, or `[]` when parsing fails or the top-level
value is not an array.  No exception escapes: every outcome is a value. -/
def cleanAndConvertJsonString (jsonString : String) : List Json :=
  match jsonParse (cleanedString jsonString) with
  | some (.arr xs) => xs
  | _ => []

/-- Modelled from the spec: "Strips a leading code-fence marker
(optionally tagged, e.g. a json hint)" — unlike the code, the leading
``` is stripped whether or not the json tag follows.  Used only to
compare the claimed behaviour against `cleanedString`. -/
def specStripLeadFence (cs : List Char) : List Char :=
  match cs with
  | '`' :: '`' :: '`' :: rest =>
    let rest' :=
      match rest with
      | j :: s :: o :: n :: r =>
        if j.toLower == 'j' && s.toLower == 's' && o.toLower == 'o' &&
            n.toLower == 'n' then r
        else rest
      | _ => rest
    rest'.dropWhile Char.isWhitespace
  | _ => cs

/-- The cleanup pipeline as the spec describes it, with the optionally
tagged leading fence. -/
def specCleanedString (s : String) : String :=
  ⟨jsTrim (stripTrailFence (specStripLeadFence (jsTrim s.data)))⟩

/-! ## Claim-side descriptions of the postWords partition -/

/-- The existing records the batched lookup matches, described by
case-folded equality (valid for regex-plain batches). -/
def matchedExisting (db : DB) (cands : List Cand) : List Word :=
  db.words.filter fun r =>
    decide (∃ c ∈ cands, jsToLower c.word = jsToLower r.word)

/-- The candidates whose case-folded form is not found among existing
records. -/
def uniqueByFold (db : DB) (cands : List Cand) : List Cand :=
  cands.filter fun c =>
    decide (∀ r ∈ db.words, jsToLower r.word ≠ jsToLower c.word)

/-! ## Case-folding lemmas -/

theorem char_toLower_spec (c : Char) :
    Char.toLower c = c ∨
      (65 ≤ c.toNat ∧ c.toNat ≤ 90 ∧
        (Char.toLower c).toNat = c.toNat + 32) := by
  have hdef : Char.toLower c =
      if c.toNat ≥ 65 ∧ c.toNat ≤ 90 then Char.ofNat (c.toNat + 32)
      else c := rfl
  by_cases h : c.toNat ≥ 65 ∧ c.toNat ≤ 90
  · right
    refine ⟨h.1, h.2, ?_⟩
    rw [hdef, if_pos h]
    obtain ⟨n, hn⟩ : ∃ n, c.toNat = n := ⟨_, rfl⟩
    rw [hn]
    have h1 : 65 ≤ n := hn ▸ h.1
    have h2 : n ≤ 90 := hn ▸ h.2
    interval_cases n <;> decide
  · left
    rw [hdef, if_neg h]

theorem char_toLower_idem (c : Char) :
    (Char.toLower c).toLower = Char.toLower c := by
  rcases char_toLower_spec c with h | ⟨h1, h2, h3⟩
  · rw [h]; exact h
  · have hdef : (Char.toLower c).toLower =
        if (Char.toLower c).toNat ≥ 65 ∧ (Char.toLower c).toNat ≤ 90 then
          Char.ofNat ((Char.toLower c).toNat + 32)
        else Char.toLower c := rfl
    rw [hdef, if_neg]
    rintro ⟨ha, hb⟩
    omega

theorem char_toLower_ne_dot {c : Char} (h : c ≠ '.') :
    Char.toLower c ≠ '.' := by
  rcases char_toLower_spec c with hc | ⟨h1, h2, h3⟩
  · rw [hc]; exact h
  · intro he
    have h46 : (Char.toLower c).toNat = 46 := by rw [he]; rfl
    omega

/-! ## The regex model on metacharacter-free patterns -/

theorem matchAnchoredCI_dotfree :
    ∀ (p : List Char), (∀ c ∈ p, c ≠ '.') → ∀ t,
      (matchAnchoredCI p t = true ↔
        t.map Char.toLower = p.map Char.toLower) := by
  intro p
  induction p with
  | nil =>
    intro _ t
    cases t <;> simp [matchAnchoredCI]
  | cons a ps ih =>
    intro hp t
    have ha : a ≠ '.' := hp a (by simp)
    cases t with
    | nil => simp [matchAnchoredCI]
    | cons b bs =>
      simp only [matchAnchoredCI, Bool.and_eq_true, Bool.or_eq_true,
        beq_iff_eq, List.map_cons, List.cons.injEq]
      rw [ih (fun c hc => hp c (by simp [hc])) bs]
      constructor
      · rintro ⟨h1 | h1, h2⟩
        · exact absurd h1 ha
        · exact ⟨h1.symm, h2⟩
      · rintro ⟨h1, h2⟩
        exact ⟨Or.inr h1.symm, h2⟩

/-- On a regex-plain word, the pattern `postWords` builds means exactly
case-folded equality. -/
theorem match_pattern_iff {w : String} (hw : regexPlainStr w = true)
    (t : String) :
    (matchAnchoredCI (jsToLower w).data t.data = true ↔
      jsToLower t = jsToLower w) := by
  have hdot : ∀ c ∈ (jsToLower w).data, c ≠ '.' := by
    intro c hc
    simp only [jsToLower, List.mem_map] at hc
    obtain ⟨d, hd, rfl⟩ := hc
    have hds : regexSpecial d = false := by
      have := congrArg (fun f => f) hw
      simp only [regexPlainStr, List.all_eq_true] at hw
      simpa using hw d hd
    have hne : d ≠ '.' := by
      intro h
      rw [h] at hds
      simp [regexSpecial] at hds
    exact char_toLower_ne_dot hne
  rw [matchAnchoredCI_dotfree _ hdot]
  have hmapmap : (jsToLower w).data.map Char.toLower = (jsToLower w).data := by
    simp only [jsToLower, List.map_map]
    apply List.map_congr_left
    intro c _
    exact char_toLower_idem c
  rw [hmapmap]
  constructor
  · intro h
    show (⟨t.data.map Char.toLower⟩ : String) = ⟨w.data.map Char.toLower⟩
    exact congrArg String.mk h
  · intro h
    have := congrArg String.data h
    simpa [jsToLower] using this

theorem mkSaved_length (now : Nat) :
    ∀ (nid : Nat) (cs : List Cand), (mkSaved now nid cs).length = cs.length := by
  intro nid cs
  induction cs generalizing nid with
  | nil => rfl
  | cons c cs ih => simp [mkSaved, ih]

theorem mkSaved_map_word (now : Nat) :
    ∀ (nid : Nat) (cs : List Cand),
      (mkSaved now nid cs).map Word.word = cs.map Cand.word := by
  intro nid cs
  induction cs generalizing nid with
  | nil => rfl
  | cons c cs ih => simp [mkSaved, ih, createWordRev1]

theorem mkSaved_filter_word_length (now : Nat) (p : String → Bool) :
    ∀ (nid : Nat) (cs : List Cand),
      ((mkSaved now nid cs).filter fun r => p r.word).length =
        (cs.filter fun c => p c.word).length := by
  intro nid cs
  induction cs generalizing nid with
  | nil => rfl
  | cons c cs ih =>
    simp only [mkSaved, List.filter_cons]
    by_cases h : p c.word
    · simpa [createWordRev1, h] using congrArg Nat.succ (ih (nid + 1))
    · simpa [createWordRev1, h] using ih (nid + 1)

/-- On a non-empty regex-plain batch, `postWords` behaves as the
case-folded partition describes: all-duplicates failure when no candidate
is new, otherwise one batched insert of exactly the fold-unique
candidates, with the folded names of the matched existing records
reported as `skippedWords`. -/
theorem postWords_plain_eq (db : DB) (now : Nat) (cands : List Cand)
    (hplain : ∀ c ∈ cands, regexPlainStr c.word = true)
    (hne : cands ≠ []) :
    postWords db now cands =
      if (uniqueByFold db cands).isEmpty then
        (.allDuplicates
          "All provided words already exist in the database (case-insensitive check).",
          db)
      else
        (.created
          (toString (mkSaved now db.nextId (uniqueByFold db cands)).length ++
            " words added successfully.")
          (mkSaved now db.nextId (uniqueByFold db cands))
          ((matchedExisting db cands).map fun r => jsToLower r.word),
         ⟨db.words ++ mkSaved now db.nextId (uniqueByFold db cands),
          db.nextId + (uniqueByFold db cands).length⟩) := by
  have hne' : cands.isEmpty = false := by
    cases cands with
    | nil => exact absurd rfl hne
    | cons c cs => rfl
  have hex : (db.words.filter fun r =>
      (cands.map fun c => jsToLower c.word).any fun name =>
        matchAnchoredCI name.data r.word.data) = matchedExisting db cands := by
    unfold matchedExisting
    apply List.filter_congr
    intro r _
    rw [Bool.eq_iff_iff]
    simp only [List.any_eq_true, List.mem_map, decide_eq_true_eq]
    constructor
    · rintro ⟨name, ⟨c, hc, rfl⟩, hm⟩
      exact ⟨c, hc, ((match_pattern_iff (hplain c hc) r.word).mp hm).symm⟩
    · rintro ⟨c, hc, hcw⟩
      exact ⟨jsToLower c.word, ⟨c, hc, rfl⟩,
        (match_pattern_iff (hplain c hc) r.word).mpr hcw.symm⟩
  have huniq : (cands.filter fun w =>
      !decide (jsToLower w.word ∈
        (matchedExisting db cands).map fun r => jsToLower r.word)) =
      uniqueByFold db cands := by
    unfold uniqueByFold
    apply List.filter_congr
    intro w hw
    rw [Bool.eq_iff_iff]
    simp only [Bool.not_eq_true', decide_eq_false_iff_not, decide_eq_true_eq,
      List.mem_map, matchedExisting, List.mem_filter]
    constructor
    · intro h r hr he
      exact h ⟨r, ⟨⟨hr, by exact ⟨w, hw, he.symm⟩⟩, he⟩⟩
    · rintro h ⟨r, ⟨hr, -⟩, he⟩
      exact h r hr he
  unfold postWords
  rw [hne']
  simp only [Bool.false_eq_true, if_false]
  rw [hex, huniq]
  rfl

/-! ## Claims C1, C2, C9: the ingestion partition -/

/-- Claim C1 (amended): for every non-empty batch of regex-plain
candidates in which at least one candidate has a case-folded word equal to
no case-folded existing record word, `postWords` partitions the candidates
by case-folded equality against the existing records, inserts exactly the
fold-unique candidates in one batched write (HTTP 201), returns the
inserted records as `addedWords`, and returns as `skippedWords` the
case-folded names of the matched existing records. -/
theorem claim_C1 (db : DB) (now : Nat) (cands : List Cand)
    (hplain : ∀ c ∈ cands, regexPlainStr c.word = true)
    (hfresh : ∃ c ∈ cands, ∀ r ∈ db.words,
      jsToLower r.word ≠ jsToLower c.word) :
    postWords db now cands =
      (.created
        (toString (uniqueByFold db cands).length ++
          " words added successfully.")
        (mkSaved now db.nextId (uniqueByFold db cands))
        ((matchedExisting db cands).map fun r => jsToLower r.word),
       ⟨db.words ++ mkSaved now db.nextId (uniqueByFold db cands),
        db.nextId + (uniqueByFold db cands).length⟩) ∧
    (mkSaved now db.nextId (uniqueByFold db cands)).map Word.word =
      (uniqueByFold db cands).map Cand.word ∧
    postStatus (postWords db now cands).1 = 201 := by
  obtain ⟨c, hc, hcf⟩ := hfresh
  have hne : cands ≠ [] := by
    intro h
    rw [h] at hc
    exact absurd hc (List.not_mem_nil c)
  have hmem : c ∈ uniqueByFold db cands := by
    unfold uniqueByFold
    exact List.mem_filter.mpr ⟨hc, by simpa using hcf⟩
  have hnonempty : ¬((uniqueByFold db cands).isEmpty = true) := by
    rw [List.isEmpty_eq_true]
    intro h
    rw [h] at hmem
    exact absurd hmem (List.not_mem_nil c)
  have hpe := postWords_plain_eq db now cands hplain hne
  refine ⟨?_, mkSaved_map_word now db.nextId _, ?_⟩
  · rw [hpe, if_neg hnonempty, mkSaved_length]
  · rw [hpe, if_neg hnonempty]
    rfl

/-- Claim C1 counterexample: a batch whose single candidate `"a.c"` has a
case-folded word matching no existing record (so the claimed partition
skips nothing), run against a store containing `"abc"`: the unescaped
regex built from the candidate matches `"abc"`, and the handler reports
`["abc"]` as `skippedWords` even though no candidate was skipped. -/
theorem claim_C1_counterexample :
    (∀ r ∈ (⟨[⟨1, "abc", 5, 0, 0⟩], 2⟩ : DB).words,
      jsToLower r.word ≠ jsToLower "a.c") ∧
    (postWords ⟨[⟨1, "abc", 5, 0, 0⟩], 2⟩ 7 [⟨"a.c", none, none⟩]).1 =
      .created "1 words added successfully." [⟨2, "a.c", 5, 0, 7⟩]
        ["abc"] ∧
    (["abc"] : List String) ≠ [] := by
  refine ⟨by decide, rfl, by decide⟩

/-- Witness for C1: store holding "Apple", batch of "APPLE" (present,
other case) and "banana" (new): one record added, the folded existing
name "apple" reported skipped, the store gains exactly one record. -/
theorem claim_C1_witness :
    (postWords ⟨[⟨1, "Apple", 5, 0, 0⟩], 2⟩ 3
        [⟨"APPLE", none, none⟩, ⟨"banana", none, none⟩]).1 =
      .created "1 words added successfully." [⟨2, "banana", 5, 0, 3⟩]
        ["apple"] ∧
    postStatus (postWords ⟨[⟨1, "Apple", 5, 0, 0⟩], 2⟩ 3
        [⟨"APPLE", none, none⟩, ⟨"banana", none, none⟩]).1 = 201 ∧
    (postWords ⟨[⟨1, "Apple", 5, 0, 0⟩], 2⟩ 3
        [⟨"APPLE", none, none⟩, ⟨"banana", none, none⟩]).2.words.length =
      2 := by
  have h := claim_C1 ⟨[⟨1, "Apple", 5, 0, 0⟩], 2⟩ 3
      [⟨"APPLE", none, none⟩, ⟨"banana", none, none⟩]
      (by decide) ⟨⟨"banana", none, none⟩, by decide, by decide⟩
  refine ⟨?_, h.2.2, ?_⟩
  · rw [h.1]
    rfl
  · rw [h.1]
    rfl

/-- Claim C2 (amended): for every non-empty batch of regex-plain
candidates in which the case-folded word of every candidate matches an
existing record, `postWords` fails with the all-duplicates 400 whose body
carries only a fixed message (not the skipped-name list), and the store
is unchanged. -/
theorem claim_C2 (db : DB) (now : Nat) (cands : List Cand)
    (hplain : ∀ c ∈ cands, regexPlainStr c.word = true)
    (hne : cands ≠ [])
    (hall : ∀ c ∈ cands, ∃ r ∈ db.words,
      jsToLower r.word = jsToLower c.word) :
    postWords db now cands =
      (.allDuplicates
        "All provided words already exist in the database (case-insensitive check).",
        db) ∧
    postStatus (postWords db now cands).1 = 400 ∧
    (postWords db now cands).2 = db := by
  have hempty : uniqueByFold db cands = [] := by
    unfold uniqueByFold
    rw [List.filter_eq_nil_iff]
    intro c hc
    obtain ⟨r, hr, he⟩ := hall c hc
    simp only [decide_eq_true_eq]
    intro hP
    exact hP r hr he
  have hcond : (uniqueByFold db cands).isEmpty = true := by
    rw [hempty]
    rfl
  have hpe := postWords_plain_eq db now cands hplain hne
  refine ⟨?_, ?_, ?_⟩
  · rw [hpe, if_pos hcond]
  · rw [hpe, if_pos hcond]
    rfl
  · rw [hpe, if_pos hcond]

/-- Claim C2 counterexample: two all-duplicate runs with different
matched names produce byte-identical failure responses, so the failure
cannot be returning the skipped-name list the claim promises. -/
theorem claim_C2_counterexample :
    (postWords ⟨[⟨1, "apple", 5, 0, 0⟩], 2⟩ 0 [⟨"Apple", none, none⟩]).1 =
      (postWords ⟨[⟨1, "berry", 5, 0, 0⟩], 2⟩ 0
        [⟨"Berry", none, none⟩]).1 ∧
    (postWords ⟨[⟨1, "apple", 5, 0, 0⟩], 2⟩ 0 [⟨"Apple", none, none⟩]).1 =
      .allDuplicates
        "All provided words already exist in the database (case-insensitive check)." ∧
    jsToLower "apple" ≠ jsToLower "berry" := by
  refine ⟨rfl, rfl, by decide⟩

/-- Witness for C2: a batch repeating the stored name in another case
fails with the fixed all-duplicates 400 and leaves the store unchanged. -/
theorem claim_C2_witness :
    postWords ⟨[⟨1, "apple", 5, 0, 0⟩], 2⟩ 0 [⟨"APPLE", none, none⟩] =
      (.allDuplicates
        "All provided words already exist in the database (case-insensitive check).",
       ⟨[⟨1, "apple", 5, 0, 0⟩], 2⟩) ∧
    postStatus (postWords ⟨[⟨1, "apple", 5, 0, 0⟩], 2⟩ 0
      [⟨"APPLE", none, none⟩]).1 = 400 := by
  have h := claim_C2 ⟨[⟨1, "apple", 5, 0, 0⟩], 2⟩ 0 [⟨"APPLE", none, none⟩]
      (by decide) (by decide)
      (fun c hc => ⟨⟨1, "apple", 5, 0, 0⟩, by decide, by
        have : c = ⟨"APPLE", none, none⟩ := by
          cases hc with
          | head => rfl
          | tail _ h' => exact absurd h' (List.not_mem_nil c)
        rw [this]
        rfl⟩)
  exact ⟨h.1, h.2.1⟩

/-- Claim C9: deduplication is only against the store, never within the
batch: a regex-plain batch containing exactly two candidates with the
same case-folded word, fresh with respect to the store, is ingested with
both candidates inserted, leaving the store with exactly two records of
that case-folded word. -/
theorem claim_C9 (db : DB) (now : Nat) (cands : List Cand) (w : String)
    (hplain : ∀ c ∈ cands, regexPlainStr c.word = true)
    (hfresh : ∀ r ∈ db.words, jsToLower r.word ≠ jsToLower w)
    (hcount : (cands.filter fun c =>
      jsToLower c.word == jsToLower w).length = 2) :
    postStatus (postWords db now cands).1 = 201 ∧
    ((postWords db now cands).2.words.filter fun r =>
      jsToLower r.word == jsToLower w).length = 2 ∧
    (db.words.filter fun r => jsToLower r.word == jsToLower w).length =
      0 := by
  have hfilterne : (cands.filter fun c =>
      jsToLower c.word == jsToLower w) ≠ [] := by
    intro h
    rw [h] at hcount
    exact absurd hcount (by decide)
  obtain ⟨c, hcmem⟩ := List.exists_mem_of_ne_nil _ hfilterne
  obtain ⟨hc, hceq⟩ := List.mem_filter.mp hcmem
  have hceq' : jsToLower c.word = jsToLower w := by
    exact of_decide_eq_true hceq
  have hne : cands ≠ [] := by
    intro h
    rw [h] at hc
    exact absurd hc (List.not_mem_nil c)
  have hmem : c ∈ uniqueByFold db cands := by
    unfold uniqueByFold
    refine List.mem_filter.mpr ⟨hc, ?_⟩
    simp only [decide_eq_true_eq]
    intro r hr
    rw [hceq']
    exact hfresh r hr
  have hnonempty : ¬((uniqueByFold db cands).isEmpty = true) := by
    rw [List.isEmpty_eq_true]
    intro h
    rw [h] at hmem
    exact absurd hmem (List.not_mem_nil c)
  have hdbzero : (db.words.filter fun r =>
      jsToLower r.word == jsToLower w) = [] := by
    rw [List.filter_eq_nil_iff]
    intro r hr h
    exact hfresh r hr (by exact of_decide_eq_true h)
  have huniqcount : ((uniqueByFold db cands).filter fun c =>
      jsToLower c.word == jsToLower w).length = 2 := by
    unfold uniqueByFold
    rw [List.filter_filter]
    rw [List.filter_congr (q := fun c =>
      jsToLower c.word == jsToLower w) ?_]
    · exact hcount
    · intro a _
      rcases ha : (jsToLower a.word == jsToLower w) with _ | _
      · simp [ha]
      · have ha' : jsToLower a.word = jsToLower w := of_decide_eq_true ha
        simp only [ha, Bool.true_and]
        exact decide_eq_true fun r hr => by rw [ha']; exact hfresh r hr
  have hpe := postWords_plain_eq db now cands hplain hne
  refine ⟨?_, ?_, ?_⟩
  · rw [hpe, if_neg hnonempty]
    rfl
  · rw [hpe, if_neg hnonempty]
    show ((db.words ++ mkSaved now db.nextId (uniqueByFold db cands)).filter
      fun r => jsToLower r.word == jsToLower w).length = 2
    rw [List.filter_append, List.length_append, hdbzero]
    simp only [List.length_nil, Nat.zero_add]
    rw [mkSaved_filter_word_length now
      (fun s => jsToLower s == jsToLower w)]
    exact huniqcount
  · rw [hdbzero]
    rfl

/-! ## Sort-comparator lemmas -/

theorem lexLe_trans {κ : Type} [LinearOrder κ] (k : Word → κ) (asc : Bool) :
    ∀ a b c : Word, lexLe k asc a b → lexLe k asc b c → lexLe k asc a c := by
  intro a b c hab hbc
  cases asc
  · simp only [lexLe, Bool.or_eq_true, Bool.and_eq_true,
      decide_eq_true_eq] at hab hbc ⊢
    rcases hab with h1 | ⟨h1, h2⟩ <;> rcases hbc with h3 | ⟨h3, h4⟩
    · exact Or.inl (lt_trans h3 h1)
    · exact Or.inl (lt_of_eq_of_lt h3 h1)
    · exact Or.inl (lt_of_lt_of_eq h3 h1)
    · exact Or.inr ⟨h3.trans h1, le_trans h4 h2⟩
  · simp only [lexLe, Bool.or_eq_true, Bool.and_eq_true,
      decide_eq_true_eq] at hab hbc ⊢
    rcases hab with h1 | ⟨h1, h2⟩ <;> rcases hbc with h3 | ⟨h3, h4⟩
    · exact Or.inl (lt_trans h1 h3)
    · exact Or.inl (lt_of_lt_of_eq h1 h3)
    · exact Or.inl (lt_of_eq_of_lt h1 h3)
    · exact Or.inr ⟨h1.trans h3, le_trans h2 h4⟩

theorem lexLe_total {κ : Type} [LinearOrder κ] (k : Word → κ) (asc : Bool) :
    ∀ a b : Word, lexLe k asc a b || lexLe k asc b a := by
  intro a b
  cases asc
  · simp only [lexLe, Bool.or_eq_true, Bool.and_eq_true, decide_eq_true_eq]
    rcases lt_trichotomy (k a) (k b) with h | h | h
    · exact Or.inr (Or.inl h)
    · rcases Nat.le_total b.id a.id with hid | hid
      · exact Or.inl (Or.inr ⟨h.symm, hid⟩)
      · exact Or.inr (Or.inr ⟨h, hid⟩)
    · exact Or.inl (Or.inl h)
  · simp only [lexLe, Bool.or_eq_true, Bool.and_eq_true, decide_eq_true_eq]
    rcases lt_trichotomy (k a) (k b) with h | h | h
    · exact Or.inl (Or.inl h)
    · rcases Nat.le_total a.id b.id with hid | hid
      · exact Or.inl (Or.inr ⟨h, hid⟩)
      · exact Or.inr (Or.inr ⟨h.symm, hid⟩)
    · exact Or.inr (Or.inl h)

theorem char_toNat_inj {a b : Char} (h : a.toNat = b.toNat) : a = b :=
  Char.eq_of_val_eq (UInt32.eq_of_toBitVec_eq (BitVec.eq_of_toNat_eq h))

theorem listLtb_trans :
    ∀ as bs cs : List Char, listLtb as bs = true → listLtb bs cs = true →
      listLtb as cs = true := by
  intro as
  induction as with
  | nil =>
    intro bs cs h1 h2
    cases bs with
    | nil => simp [listLtb] at h1
    | cons b bs' =>
      cases cs with
      | nil => simp [listLtb] at h2
      | cons c cs' => simp [listLtb]
  | cons a as ih =>
    intro bs cs h1 h2
    cases bs with
    | nil => simp [listLtb] at h1
    | cons b bs' =>
      cases cs with
      | nil => simp [listLtb] at h2
      | cons c cs' =>
        simp only [listLtb, Bool.or_eq_true, Bool.and_eq_true,
          decide_eq_true_eq, beq_iff_eq] at h1 h2 ⊢
        rcases h1 with h1 | ⟨rfl, h1⟩
        · rcases h2 with h2 | ⟨rfl, h2⟩
          · exact Or.inl (Nat.lt_trans h1 h2)
          · exact Or.inl h1
        · rcases h2 with h2 | ⟨rfl, h2⟩
          · exact Or.inl h2
          · exact Or.inr ⟨rfl, ih _ _ h1 h2⟩

theorem listLtb_trichotomy :
    ∀ as bs : List Char,
      listLtb as bs = true ∨ as = bs ∨ listLtb bs as = true := by
  intro as
  induction as with
  | nil =>
    intro bs
    cases bs with
    | nil => exact Or.inr (Or.inl rfl)
    | cons b bs' => exact Or.inl (by simp [listLtb])
  | cons a as ih =>
    intro bs
    cases bs with
    | nil => exact Or.inr (Or.inr (by simp [listLtb]))
    | cons b bs' =>
      rcases Nat.lt_trichotomy a.toNat b.toNat with h | h | h
      · exact Or.inl (by simp [listLtb, h])
      · have hab : a = b := char_toNat_inj h
        subst hab
        rcases ih bs' with h' | h' | h'
        · exact Or.inl (by simp [listLtb, h'])
        · exact Or.inr (Or.inl (by rw [h']))
        · exact Or.inr (Or.inr (by simp [listLtb, h']))
      · exact Or.inr (Or.inr (by simp [listLtb, h]))

theorem textLe_trans (asc : Bool) :
    ∀ a b c : Word, textLe asc a b → textLe asc b c → textLe asc a c := by
  intro a b c hab hbc
  cases asc
  · simp only [textLe, strLtb, Bool.or_eq_true, Bool.and_eq_true,
      decide_eq_true_eq, beq_iff_eq] at hab hbc ⊢
    rcases hab with h1 | ⟨h1, h2⟩ <;> rcases hbc with h3 | ⟨h3, h4⟩
    · exact Or.inl (listLtb_trans _ _ _ h3 h1)
    · exact Or.inl (by rw [h3]; exact h1)
    · exact Or.inl (by rw [← h1]; exact h3)
    · exact Or.inr ⟨h3.trans h1, le_trans h4 h2⟩
  · simp only [textLe, strLtb, Bool.or_eq_true, Bool.and_eq_true,
      decide_eq_true_eq, beq_iff_eq] at hab hbc ⊢
    rcases hab with h1 | ⟨h1, h2⟩ <;> rcases hbc with h3 | ⟨h3, h4⟩
    · exact Or.inl (listLtb_trans _ _ _ h1 h3)
    · exact Or.inl (by rw [← h3]; exact h1)
    · exact Or.inl (by rw [h1]; exact h3)
    · exact Or.inr ⟨h1.trans h3, le_trans h2 h4⟩

theorem textLe_total (asc : Bool) :
    ∀ a b : Word, textLe asc a b || textLe asc b a := by
  intro a b
  cases asc
  · simp only [textLe, strLtb, Bool.or_eq_true, Bool.and_eq_true,
      decide_eq_true_eq, beq_iff_eq]
    rcases listLtb_trichotomy a.word.data b.word.data with h | h | h
    · exact Or.inr (Or.inl h)
    · have hw : a.word = b.word := String.toList_inj.mp h
      rcases Nat.le_total b.id a.id with hid | hid
      · exact Or.inl (Or.inr ⟨hw.symm, hid⟩)
      · exact Or.inr (Or.inr ⟨hw, hid⟩)
    · exact Or.inl (Or.inl h)
  · simp only [textLe, strLtb, Bool.or_eq_true, Bool.and_eq_true,
      decide_eq_true_eq, beq_iff_eq]
    rcases listLtb_trichotomy a.word.data b.word.data with h | h | h
    · exact Or.inl (Or.inl h)
    · have hw : a.word = b.word := String.toList_inj.mp h
      rcases Nat.le_total a.id b.id with hid | hid
      · exact Or.inl (Or.inr ⟨hw, hid⟩)
      · exact Or.inr (Or.inr ⟨hw.symm, hid⟩)
    · exact Or.inr (Or.inl h)

theorem sortLe_trans (f : SField) (asc : Bool) :
    ∀ a b c : Word, sortLe f asc a b → sortLe f asc b c →
      sortLe f asc a c := by
  cases f
  case revised => exact lexLe_trans _ asc
  case opened => exact lexLe_trans _ asc
  case created => exact lexLe_trans _ asc
  case text => exact textLe_trans asc

theorem sortLe_total (f : SField) (asc : Bool) :
    ∀ a b : Word, sortLe f asc a b || sortLe f asc b a := by
  cases f
  case revised => exact lexLe_total _ asc
  case opened => exact lexLe_total _ asc
  case created => exact lexLe_total _ asc
  case text => exact textLe_total asc

/-- Any page the handler serves is sorted with respect to the selected
comparator. -/
theorem pairwise_sorted_page (db : DB) (f : SField) (asc : Bool)
    (nSkip nTake : Nat) :
    (((db.words.insertionSort fun a b =>
        sortLe f asc a b = true).drop nSkip).take nTake).Pairwise
      (fun a b => sortLe f asc a b = true) := by
  haveI : IsTrans Word fun a b => sortLe f asc a b = true :=
    ⟨fun a b c hab hbc => sortLe_trans f asc a b c hab hbc⟩
  haveI : IsTotal Word fun a b => sortLe f asc a b = true :=
    ⟨fun a b => by
      have := sortLe_total f asc a b
      rcases Bool.or_eq_true_iff.mp this with h | h
      · exact Or.inl h
      · exact Or.inr h⟩
  have hs := List.sorted_insertionSort (fun a b => sortLe f asc a b = true)
    db.words
  exact List.Pairwise.sublist
    ((List.take_sublist _ _).trans (List.drop_sublist _ _)) hs

theorem sortLe_text_true_iff (a b : Word) :
    sortLe .text true a b = true ↔
      (strLtb a.word b.word = true ∨ (a.word = b.word ∧ a.id ≤ b.id)) := by
  simp [sortLe, textLe]

theorem sortLe_revised_true_iff (a b : Word) :
    sortLe .revised true a b = true ↔
      (a.no_of_times_revised < b.no_of_times_revised ∨
        (a.no_of_times_revised = b.no_of_times_revised ∧ a.id ≤ b.id)) := by
  simp [sortLe, lexLe]

/-- Witness for C9: an empty store and the batch ["Hello", "HELLO"]: both
candidates are inserted and the store ends with two records whose
case-folded word is "hello". -/
theorem claim_C9_witness :
    postStatus (postWords ⟨[], 1⟩ 4
      [⟨"Hello", none, none⟩, ⟨"HELLO", none, none⟩]).1 = 201 ∧
    ((postWords ⟨[], 1⟩ 4
      [⟨"Hello", none, none⟩, ⟨"HELLO", none, none⟩]).2.words.filter
        fun r => jsToLower r.word == jsToLower "hello").length = 2 := by
  have h := claim_C9 ⟨[], 1⟩ 4
      [⟨"Hello", none, none⟩, ⟨"HELLO", none, none⟩] "hello"
      (by decide) (by decide) (by decide)
  exact ⟨h.1, h.2.1⟩

/-! ## Claims C3, C4, C5, C10: the sorted, paginated listing -/

theorem getWordsByType_badLimit (db : DB) (limitQ pageQ typeQ : Option String)
    (h1 : parseIntOr limitQ 20 < 1 ∨ parseIntOr limitQ 20 > 100) :
    getWordsByType db limitQ pageQ typeQ =
      (.invalidPagination "Limit must be between 1 and 100", []) := by
  simp only [getWordsByType]
  rw [if_pos h1]

theorem getWordsByType_badPage (db : DB) (limitQ pageQ typeQ : Option String)
    (h1 : ¬(parseIntOr limitQ 20 < 1 ∨ parseIntOr limitQ 20 > 100))
    (h2 : parseIntOr pageQ 1 < 1) :
    getWordsByType db limitQ pageQ typeQ =
      (.invalidPagination "Page must be greater than 0", []) := by
  simp only [getWordsByType]
  rw [if_neg h1, if_pos h2]

theorem getWordsByType_badType (db : DB) (limitQ pageQ typeQ : Option String)
    (h1 : ¬(parseIntOr limitQ 20 < 1 ∨ parseIntOr limitQ 20 > 100))
    (h2 : ¬(parseIntOr pageQ 1 < 1))
    (hsw : sortSwitch (jsToLower (typeOr typeQ)) = none) :
    getWordsByType db limitQ pageQ typeQ =
      (.unsupportedType invalidTypeMsg, [.countDocs]) := by
  simp only [getWordsByType]
  rw [if_neg h1, if_neg h2, hsw]

theorem getWordsByType_ok_shape (db : DB)
    (limitQ pageQ typeQ : Option String) (f : SField) (asc : Bool)
    (d : String)
    (h1 : ¬(parseIntOr limitQ 20 < 1 ∨ parseIntOr limitQ 20 > 100))
    (h2 : ¬(parseIntOr pageQ 1 < 1))
    (hsw : sortSwitch (jsToLower (typeOr typeQ)) = some ((f, asc), d)) :
    getWordsByType db limitQ pageQ typeQ =
      (.ok db.words.length
        ((db.words.length + ((parseIntOr limitQ 20).toNat - 1)) /
          (parseIntOr limitQ 20).toNat)
        (parseIntOr pageQ 1) (parseIntOr limitQ 20) (typeOr typeQ) d
        (((db.words.insertionSort fun a b => sortLe f asc a b = true).drop
          (((parseIntOr pageQ 1 - 1) * parseIntOr limitQ 20).toNat)).take
          (parseIntOr limitQ 20).toNat),
       [.countDocs, .findScan]) := by
  simp only [getWordsByType]
  rw [if_neg h1, if_neg h2, hsw]

/-- Claim C3: every supported sort-type token maps to exactly the primary
field and direction of the fixed table, with the record id as secondary
key in the same direction; and with type=alphabetical every served page
is non-decreasing by word text with ties broken by ascending id. -/
theorem claim_C3 :
    (sortSwitch "least_revised" = some ((.revised, true),
        "Words sorted by least revised (ascending)") ∧
      sortSwitch "normal" = some ((.revised, true),
        "Words sorted in normal sequence (revised count ascending)") ∧
      sortSwitch "most_revised" = some ((.revised, false),
        "Words sorted by most revised (descending)") ∧
      sortSwitch "most_difficult" = some ((.opened, false),
        "Words sorted by most difficult (most opened)") ∧
      sortSwitch "least_opened" = some ((.opened, true),
        "Words sorted by least opened (easiest words)") ∧
      sortSwitch "newest_first" = some ((.created, false),
        "Words sorted by newest first") ∧
      sortSwitch "oldest_first" = some ((.created, true),
        "Words sorted by oldest first") ∧
      sortSwitch "alphabetical" = some ((.text, true),
        "Words sorted alphabetically (A to Z)") ∧
      sortSwitch "reverse_alphabetical" = some ((.text, false),
        "Words sorted reverse alphabetically (Z to A)")) ∧
    (∀ (db : DB) (limitQ pageQ : Option String)
      (tc tp : Nat) (cp lim : Int) (ty d : String) (ws : List Word)
      (ops : List StoreOp),
      getWordsByType db limitQ pageQ (some "alphabetical") =
        (.ok tc tp cp lim ty d ws, ops) →
      ws.Pairwise fun a b =>
        strLtb a.word b.word = true ∨
          (a.word = b.word ∧ a.id ≤ b.id)) := by
  refine ⟨⟨rfl, rfl, rfl, rfl, rfl, rfl, rfl, rfl, rfl⟩, ?_⟩
  intro db limitQ pageQ tc tp cp lim ty d ws ops h
  by_cases h1 : parseIntOr limitQ 20 < 1 ∨ parseIntOr limitQ 20 > 100
  · rw [getWordsByType_badLimit db limitQ pageQ (some "alphabetical") h1]
      at h
    exact GWBTRes.noConfusion (congrArg Prod.fst h)
  · by_cases h2 : parseIntOr pageQ 1 < 1
    · rw [getWordsByType_badPage db limitQ pageQ (some "alphabetical")
        h1 h2] at h
      exact GWBTRes.noConfusion (congrArg Prod.fst h)
    · rw [getWordsByType_ok_shape db limitQ pageQ (some "alphabetical")
        .text true "Words sorted alphabetically (A to Z)" h1 h2 rfl] at h
      injection congrArg Prod.fst h with e1 e2 e3 e4 e5 e6 e7
      rw [← e7]
      refine (pairwise_sorted_page db .text true _ _).imp ?_
      intro a b hab
      exact (sortLe_text_true_iff a b).mp hab

/-- Witness for C3: a concrete two-record store served with
type=alphabetical yields a page that is sorted by word text with
ascending-id ties. -/
theorem claim_C3_witness :
    getWordsByType ⟨[⟨2, "b", 0, 0, 0⟩, ⟨1, "a", 0, 0, 1⟩], 3⟩ none none
        (some "alphabetical") =
      (.ok 2 1 1 20 "alphabetical" "Words sorted alphabetically (A to Z)"
        [⟨1, "a", 0, 0, 1⟩, ⟨2, "b", 0, 0, 0⟩],
       [.countDocs, .findScan]) ∧
    ([⟨1, "a", 0, 0, 1⟩, ⟨2, "b", 0, 0, 0⟩] : List Word).Pairwise
      (fun a b => strLtb a.word b.word = true ∨
        (a.word = b.word ∧ a.id ≤ b.id)) := by
  refine ⟨rfl, ?_⟩
  exact claim_C3.2 ⟨[⟨2, "b", 0, 0, 0⟩, ⟨1, "a", 0, 0, 1⟩], 3⟩ none none
    2 1 1 20 "alphabetical" "Words sorted alphabetically (A to Z)"
    [⟨1, "a", 0, 0, 1⟩, ⟨2, "b", 0, 0, 0⟩] [.countDocs, .findScan] rfl

/-- Claim C4 (amended): an unrecognised type token with valid pagination
fails with 400, the failure message lists the nine valid tokens, and no
store write occurs — but the handler does read the record count before
rejecting the token, so the store is touched by one read. -/
theorem claim_C4 (db : DB) (limitQ pageQ : Option String) (s : String)
    (hl1 : 1 ≤ parseIntOr limitQ 20) (hl2 : parseIntOr limitQ 20 ≤ 100)
    (hp : 1 ≤ parseIntOr pageQ 1)
    (hs : s ≠ "") (hbad : sortSwitch (jsToLower s) = none) :
    getWordsByType db limitQ pageQ (some s) =
      (.unsupportedType invalidTypeMsg, [.countDocs]) ∧
    gwbtStatus (getWordsByType db limitQ pageQ (some s)).1 = 400 ∧
    (∀ t ∈ validTypeTokens, containsSubstr invalidTypeMsg t = true) ∧
    (∀ op ∈ (getWordsByType db limitQ pageQ (some s)).2,
      isWriteOp op = false) := by
  have hts : typeOr (some s) = s := by
    simp [typeOr, hs]
  have h1 : ¬(parseIntOr limitQ 20 < 1 ∨ parseIntOr limitQ 20 > 100) := by
    omega
  have h2 : ¬(parseIntOr pageQ 1 < 1) := by omega
  have hmain := getWordsByType_badType db limitQ pageQ (some s) h1 h2
    (by rw [hts]; exact hbad)
  refine ⟨hmain, ?_, by decide, ?_⟩
  · rw [hmain]
    rfl
  · rw [hmain]
    intro op hop
    simp only [List.mem_singleton] at hop
    rw [hop]
    rfl

/-- Claim C4 counterexample: with an unrecognised token the handler still
performs the `countDocuments` store read before failing, so the claim
that the store is never touched is false. -/
theorem claim_C4_counterexample :
    (getWordsByType ⟨[⟨1, "a", 0, 0, 0⟩], 2⟩ none none (some "bogus")).2 =
      [.countDocs] ∧
    ([StoreOp.countDocs] : List StoreOp) ≠ [] ∧
    gwbtStatus (getWordsByType ⟨[⟨1, "a", 0, 0, 0⟩], 2⟩ none none
      (some "bogus")).1 = 400 := by
  refine ⟨rfl, by decide, rfl⟩

/-- Witness for C4: the unsupported token "bogus" with default pagination
fails with 400 and the token-listing message, with no write performed. -/
theorem claim_C4_witness :
    getWordsByType ⟨[⟨1, "a", 0, 0, 0⟩], 2⟩ none none (some "bogus") =
      (.unsupportedType invalidTypeMsg, [.countDocs]) ∧
    gwbtStatus (getWordsByType ⟨[⟨1, "a", 0, 0, 0⟩], 2⟩ none none
      (some "bogus")).1 = 400 := by
  have h := claim_C4 ⟨[⟨1, "a", 0, 0, 0⟩], 2⟩ none none "bogus"
    (by decide) (by decide) (by decide) (by decide) rfl
  exact ⟨h.1, h.2.1⟩

/-- Claim C5 (amended): a limit parsing outside 1–100 fails with 400
before any store access — limit=101 fails — but limit=0 parses to a falsy
0 and silently becomes the default 20 instead of failing; likewise a
negative page fails with 400 while page=0 silently becomes 1.  With valid
pagination the offset is (page−1)×limit, at most limit records are
returned, and the response carries the total count and
ceil(total/limit). -/
theorem claim_C5 (db : DB) (limitQ pageQ typeQ : Option String) :
    (parseIntOr limitQ 20 < 1 ∨ parseIntOr limitQ 20 > 100 →
      getWordsByType db limitQ pageQ typeQ =
        (.invalidPagination "Limit must be between 1 and 100", []) ∧
      gwbtStatus (getWordsByType db limitQ pageQ typeQ).1 = 400) ∧
    (1 ≤ parseIntOr limitQ 20 → parseIntOr limitQ 20 ≤ 100 →
      parseIntOr pageQ 1 < 1 →
      getWordsByType db limitQ pageQ typeQ =
        (.invalidPagination "Page must be greater than 0", []) ∧
      gwbtStatus (getWordsByType db limitQ pageQ typeQ).1 = 400) ∧
    parseIntOr (some "0") 20 = 20 ∧
    parseIntOr (some "101") 20 = 101 ∧
    (∀ (f : SField) (asc : Bool) (d : String),
      1 ≤ parseIntOr limitQ 20 → parseIntOr limitQ 20 ≤ 100 →
      1 ≤ parseIntOr pageQ 1 →
      sortSwitch (jsToLower (typeOr typeQ)) = some ((f, asc), d) →
      getWordsByType db limitQ pageQ typeQ =
        (.ok db.words.length
          ((db.words.length + ((parseIntOr limitQ 20).toNat - 1)) /
            (parseIntOr limitQ 20).toNat)
          (parseIntOr pageQ 1) (parseIntOr limitQ 20) (typeOr typeQ) d
          (((db.words.insertionSort fun a b => sortLe f asc a b = true).drop
            (((parseIntOr pageQ 1 - 1) * parseIntOr limitQ 20).toNat)).take
            (parseIntOr limitQ 20).toNat),
         [.countDocs, .findScan]) ∧
      ((getWordsByType db limitQ pageQ typeQ).1.wordsOf).length ≤
        (parseIntOr limitQ 20).toNat) := by
  refine ⟨?_, ?_, rfl, rfl, ?_⟩
  · intro h1
    have hmain := getWordsByType_badLimit db limitQ pageQ typeQ h1
    exact ⟨hmain, by rw [hmain]; rfl⟩
  · intro hl1 hl2 hp
    have h1 : ¬(parseIntOr limitQ 20 < 1 ∨ parseIntOr limitQ 20 > 100) := by
      omega
    have hmain := getWordsByType_badPage db limitQ pageQ typeQ h1 hp
    exact ⟨hmain, by rw [hmain]; rfl⟩
  · intro f asc d hl1 hl2 hp hsw
    have h1 : ¬(parseIntOr limitQ 20 < 1 ∨ parseIntOr limitQ 20 > 100) := by
      omega
    have h2 : ¬(parseIntOr pageQ 1 < 1) := by omega
    have hmain := getWordsByType_ok_shape db limitQ pageQ typeQ f asc d
      h1 h2 hsw
    refine ⟨hmain, ?_⟩
    rw [hmain]
    exact List.length_take_le _ _

/-- Claim C5 counterexample: limit=0 and page=0 do not fail with 400 —
`parseInt(..) || default` treats the parsed 0 as falsy, so the request
succeeds with the defaults limit=20, page=1 and status 200. -/
theorem claim_C5_counterexample :
    gwbtStatus (getWordsByType ⟨[⟨1, "a", 0, 0, 0⟩], 2⟩ (some "0")
      (some "0") (some "normal")).1 = 200 ∧
    (getWordsByType ⟨[⟨1, "a", 0, 0, 0⟩], 2⟩ (some "0") (some "0")
      (some "normal")).1 =
      .ok 1 1 1 20 "normal"
        "Words sorted in normal sequence (revised count ascending)"
        [⟨1, "a", 0, 0, 0⟩] ∧
    (200 : Nat) ≠ 400 := by
  refine ⟨rfl, rfl, by decide⟩

/-- Witness for C5: limit=101 fails with 400; limit=100, page=1 succeeds
with at most 100 records returned. -/
theorem claim_C5_witness :
    getWordsByType ⟨[⟨1, "a", 0, 0, 0⟩], 2⟩ (some "101") none
      (some "normal") =
      (.invalidPagination "Limit must be between 1 and 100", []) ∧
    getWordsByType ⟨[⟨1, "a", 0, 0, 0⟩], 2⟩ (some "100") (some "1")
      (some "normal") =
      (.ok 1 1 1 100 "normal"
        "Words sorted in normal sequence (revised count ascending)"
        [⟨1, "a", 0, 0, 0⟩], [.countDocs, .findScan]) ∧
    ((getWordsByType ⟨[⟨1, "a", 0, 0, 0⟩], 2⟩ (some "100") (some "1")
      (some "normal")).1.wordsOf).length ≤ 100 := by
  have hbad := (claim_C5 ⟨[⟨1, "a", 0, 0, 0⟩], 2⟩ (some "101") none
    (some "normal")).1 (by decide)
  have hok := (claim_C5 ⟨[⟨1, "a", 0, 0, 0⟩], 2⟩ (some "100") (some "1")
    (some "normal")).2.2.2.2 .revised true
    "Words sorted in normal sequence (revised count ascending)"
    (by decide) (by decide) (by decide) rfl
  exact ⟨hbad.1, hok.1, hok.2⟩

/-- Claim C10: an absent or empty type token does not fail with the
unsupported-type 400: it defaults to "normal", and with valid pagination
the request succeeds with the normal ordering (revision count ascending,
id ascending on ties). -/
theorem claim_C10 (db : DB) (limitQ pageQ : Option String)
    (hl1 : 1 ≤ parseIntOr limitQ 20) (hl2 : parseIntOr limitQ 20 ≤ 100)
    (hp : 1 ≤ parseIntOr pageQ 1) :
    getWordsByType db limitQ pageQ none =
      getWordsByType db limitQ pageQ (some "") ∧
    getWordsByType db limitQ pageQ none =
      getWordsByType db limitQ pageQ (some "normal") ∧
    (∀ m, (getWordsByType db limitQ pageQ none).1 ≠
      .unsupportedType m) ∧
    gwbtStatus (getWordsByType db limitQ pageQ none).1 = 200 ∧
    ((getWordsByType db limitQ pageQ none).1.wordsOf).Pairwise
      (fun a b => a.no_of_times_revised < b.no_of_times_revised ∨
        (a.no_of_times_revised = b.no_of_times_revised ∧
          a.id ≤ b.id)) := by
  have h1 : ¬(parseIntOr limitQ 20 < 1 ∨ parseIntOr limitQ 20 > 100) := by
    omega
  have h2 : ¬(parseIntOr pageQ 1 < 1) := by omega
  have hmain := getWordsByType_ok_shape db limitQ pageQ none .revised true
    "Words sorted in normal sequence (revised count ascending)" h1 h2 rfl
  refine ⟨rfl, rfl, ?_, ?_, ?_⟩
  · intro m
    rw [hmain]
    intro hx
    exact GWBTRes.noConfusion hx
  · rw [hmain]
    rfl
  · rw [hmain]
    refine (pairwise_sorted_page db .revised true _ _).imp ?_
    intro a b hab
    exact (sortLe_revised_true_iff a b).mp hab

/-- Witness for C10: an absent type behaves exactly like type=normal and
succeeds with the normal ordering on a concrete store. -/
theorem claim_C10_witness :
    getWordsByType ⟨[⟨1, "a", 0, 3, 0⟩, ⟨2, "b", 0, 1, 0⟩], 3⟩ none none
        none =
      getWordsByType ⟨[⟨1, "a", 0, 3, 0⟩, ⟨2, "b", 0, 1, 0⟩], 3⟩ none none
        (some "normal") ∧
    gwbtStatus (getWordsByType ⟨[⟨1, "a", 0, 3, 0⟩, ⟨2, "b", 0, 1, 0⟩], 3⟩
      none none none).1 = 200 ∧
    (getWordsByType ⟨[⟨1, "a", 0, 3, 0⟩, ⟨2, "b", 0, 1, 0⟩], 3⟩ none none
      none).1 =
      .ok 2 1 1 20 "normal"
        "Words sorted in normal sequence (revised count ascending)"
        [⟨2, "b", 0, 1, 0⟩, ⟨1, "a", 0, 3, 0⟩] := by
  have h := claim_C10 ⟨[⟨1, "a", 0, 3, 0⟩, ⟨2, "b", 0, 1, 0⟩], 3⟩ none none
    (by decide) (by decide) (by decide)
  exact ⟨h.2.1, h.2.2.2.1, rfl⟩

/-! ## Claim C6: the counter mutators -/

theorem updateFirst_none (oid : Nat) (f : Word → Word) :
    ∀ ws : List Word, (∀ r ∈ ws, r.id ≠ oid) →
      updateFirst ws oid f = none := by
  intro ws
  induction ws with
  | nil => intro _; rfl
  | cons w rest ih =>
    intro h
    have hw : w.id ≠ oid := h w (by simp)
    simp only [updateFirst]
    rw [if_neg (by simpa using hw), ih (fun r hr => h r (by simp [hr]))]

theorem updateFirst_found (oid : Nat) (f : Word → Word) (r : Word)
    (post : List Word) (hr : r.id = oid) :
    ∀ pre : List Word, (∀ p ∈ pre, p.id ≠ oid) →
      updateFirst (pre ++ r :: post) oid f =
        some (f r, pre ++ f r :: post) := by
  intro pre
  induction pre with
  | nil =>
    intro _
    simp only [List.nil_append, updateFirst]
    rw [if_pos (by simpa using hr)]
  | cons p pre' ih =>
    intro h
    have hp : p.id ≠ oid := h p (by simp)
    simp only [List.cons_append, updateFirst]
    rw [if_neg (by simpa using hp)]
    simp only [List.append_eq]
    rw [ih (fun q hq => h q (by simp [hq]))]

/-- Claim C6: each counter-mutation handler rejects a missing id with 400
MissingId, an id that the ObjectId format check refuses with 400
InvalidIdFormat, and an unmatched id with 404 NotFound, all leaving the
store unchanged; on a match the returned counter equals the pre-mutation
value plus the delta (+1 for the increments, −1 for the decrement, with
no lower bound), and only the matched record changes. -/
theorem claim_C6 (db : DB) :
    (∀ idQ, idQ = none ∨ idQ = some "" →
      increase_open_count db idQ = (.missingId "Word ID is required", db) ∧
      decrease_open_count db idQ = (.missingId "Word ID is required", db) ∧
      increase_revision_count db idQ =
        (.missingId "Word ID is required", db) ∧
      counterStatus (increase_open_count db idQ).1 = 400) ∧
    (∀ s : String, s ≠ "" → isValidObjectId s = false →
      increase_open_count db (some s) =
        (.invalidId "Invalid word ID format", db) ∧
      decrease_open_count db (some s) =
        (.invalidId "Invalid word ID format", db) ∧
      increase_revision_count db (some s) =
        (.invalidId "Invalid word ID format", db) ∧
      counterStatus (increase_open_count db (some s)).1 = 400) ∧
    (∀ s : String, s ≠ "" → isValidObjectId s = true →
      (∀ r ∈ db.words, r.id ≠ oidVal s) →
      increase_open_count db (some s) = (.notFound "Word not found", db) ∧
      decrease_open_count db (some s) = (.notFound "Word not found", db) ∧
      increase_revision_count db (some s) =
        (.notFound "Word not found", db) ∧
      counterStatus (increase_open_count db (some s)).1 = 404) ∧
    (∀ (s : String) (pre : List Word) (r : Word) (post : List Word),
      s ≠ "" → isValidObjectId s = true →
      db.words = pre ++ r :: post → (∀ p ∈ pre, p.id ≠ oidVal s) →
      r.id = oidVal s →
      increase_open_count db (some s) =
        (.okOpen r.id r.word (r.no_of_times_opened + 1),
         { db with words := pre ++
            { r with no_of_times_opened := r.no_of_times_opened + 1 } ::
              post }) ∧
      decrease_open_count db (some s) =
        (.okOpen r.id r.word (r.no_of_times_opened - 1),
         { db with words := pre ++
            { r with no_of_times_opened := r.no_of_times_opened - 1 } ::
              post }) ∧
      increase_revision_count db (some s) =
        (.okRevision r.id r.word (r.no_of_times_revised + 1)
          r.no_of_times_opened,
         { db with words := pre ++
            { r with no_of_times_revised := r.no_of_times_revised + 1 } ::
              post })) := by
  refine ⟨?_, ?_, ?_, ?_⟩
  · rintro idQ (rfl | rfl)
    · exact ⟨rfl, rfl, rfl, rfl⟩
    · exact ⟨rfl, rfl, rfl, rfl⟩
  · intro s hs hv
    have hbeq : (s == "") = false := by simp [hs]
    refine ⟨?_, ?_, ?_, ?_⟩ <;>
      · simp only [increase_open_count, decrease_open_count,
          increase_revision_count, counterMutate]
        rw [if_neg (by simp [hbeq]), if_pos (by simp [hv])] <;> rfl
  · intro s hs hv hnone
    have hbeq : (s == "") = false := by simp [hs]
    have hupd : ∀ f : Word → Word,
        updateFirst db.words (oidVal s) f = none :=
      fun f => updateFirst_none (oidVal s) f db.words hnone
    refine ⟨?_, ?_, ?_, ?_⟩ <;>
      · simp only [increase_open_count, decrease_open_count,
          increase_revision_count, counterMutate]
        rw [if_neg (by simp [hbeq]), if_neg (by simp [hv]), hupd] <;> rfl
  · intro s pre r post hs hv hdb hpre hr
    have hbeq : (s == "") = false := by simp [hs]
    have hupd : ∀ f : Word → Word,
        updateFirst db.words (oidVal s) f =
          some (f r, pre ++ f r :: post) := by
      intro f
      rw [hdb]
      exact updateFirst_found (oidVal s) f r post hr pre hpre
    refine ⟨?_, ?_, ?_⟩ <;>
      · simp only [increase_open_count, decrease_open_count,
          increase_revision_count, counterMutate]
        rw [if_neg (by simp [hbeq]), if_neg (by simp [hv]), hupd]

/-- Witness for C6: a valid 24-hex id matching a record whose open count
is 0: the decrement succeeds and returns −1 (no lower bound); a missing
id fails with 400; an ill-formed id fails with 400; an unmatched id fails
with 404. -/
theorem claim_C6_witness :
    decrease_open_count ⟨[⟨1, "w", 0, 0, 0⟩], 5⟩
        (some "000000000000000000000001") =
      (.okOpen 1 "w" (-1), ⟨[⟨1, "w", -1, 0, 0⟩], 5⟩) ∧
    increase_open_count ⟨[⟨1, "w", 0, 0, 0⟩], 5⟩ none =
      (.missingId "Word ID is required", ⟨[⟨1, "w", 0, 0, 0⟩], 5⟩) ∧
    increase_open_count ⟨[⟨1, "w", 0, 0, 0⟩], 5⟩ (some "nope") =
      (.invalidId "Invalid word ID format", ⟨[⟨1, "w", 0, 0, 0⟩], 5⟩) ∧
    increase_revision_count ⟨[⟨1, "w", 0, 0, 0⟩], 5⟩
        (some "000000000000000000000002") =
      (.notFound "Word not found", ⟨[⟨1, "w", 0, 0, 0⟩], 5⟩) := by
  have h := claim_C6 ⟨[⟨1, "w", 0, 0, 0⟩], 5⟩
  refine ⟨?_, ?_, ?_, ?_⟩
  · have hd := (h.2.2.2 "000000000000000000000001" [] ⟨1, "w", 0, 0, 0⟩ []
      (by decide) (by decide) rfl (by decide) (by decide)).2.1
    exact hd.trans (by decide)
  · exact (h.1 none (Or.inl rfl)).1
  · exact (h.2.1 "nope" (by decide) (by decide)).1
  · exact (h.2.2.1 "000000000000000000000002" (by decide) (by decide)
      (by decide)).2.2.1

/-! ## Claim C8: the schema-revision counter defaults -/

/-- Claim C8 counterexample: a record created without explicit counter
values under the first schema revision gets no_of_times_opened = 5, not
the claimed 0. -/
theorem claim_C8_counterexample :
    (createWordRev1 ⟨"x", none, none⟩ 1 0).no_of_times_opened = 5 ∧
    ((5 : Int) ≠ 0) := ⟨rfl, by decide⟩

/-- Claim C8 (amended): under the first schema revision a record created
without explicit counter values has no_of_times_opened = 5 and
no_of_times_revised = 0; under the second revision no_of_times_opened
defaults to 0 and no no_of_times_revised field is declared at all. -/
theorem claim_C8 (c : Cand) (id t : Nat) (ho : c.openedOpt = none)
    (hr : c.revisedOpt = none) :
    (createWordRev1 c id t).no_of_times_opened = 5 ∧
    (createWordRev1 c id t).no_of_times_revised = 0 ∧
    (createWordRev2 c id t).no_of_times_opened = 0 := by
  refine ⟨?_, ?_, ?_⟩ <;> simp [createWordRev1, createWordRev2, ho, hr]

/-- Witness for C8. -/
theorem claim_C8_witness :
    (createWordRev1 ⟨"x", none, none⟩ 2 3).no_of_times_opened = 5 ∧
    (createWordRev1 ⟨"x", none, none⟩ 2 3).no_of_times_revised = 0 ∧
    (createWordRev2 ⟨"x", none, none⟩ 2 3).no_of_times_opened = 0 :=
  claim_C8 ⟨"x", none, none⟩ 2 3 rfl rfl

/-! ## Claim C7: the AI-response parser -/

theorem dropWhile_append_of_head (p : Char → Bool) (L M : List Char)
    (h0 : L ≠ []) (h1 : L.dropWhile p = L) :
    (L ++ M).dropWhile p = L ++ M := by
  rw [List.dropWhile_append, h1,
    if_neg (by simpa [List.isEmpty_eq_true] using h0)]

theorem jsTrim_of_fixed (L : List Char)
    (h1 : L.dropWhile Char.isWhitespace = L)
    (h2 : L.reverse.dropWhile Char.isWhitespace = L.reverse) :
    jsTrim L = L := by
  unfold jsTrim
  rw [h1, h2, List.reverse_reverse]

theorem stripLeadFence_of_no_fence (cs : List Char)
    (h : hasJsonFenceStart cs = false) : stripLeadFence cs = cs := by
  unfold stripLeadFence
  rw [h]
  simp

theorem stripTrailFence_of_not_ticks (cs : List Char)
    (h : endsWithTicks cs = false) : stripTrailFence cs = cs := by
  unfold stripTrailFence
  unfold endsWithTicks at h
  split
  · rename_i r heq
    rw [heq] at h
    exact absurd h (by simp)
  · rfl

/-- Wrapping trimmed, fence-free content in a tagged code fence is undone
exactly by the cleanup pipeline. -/
theorem cleanedString_wrap (inner : String) (h0 : inner.data ≠ [])
    (h1 : inner.data.dropWhile Char.isWhitespace = inner.data)
    (h2 : inner.data.reverse.dropWhile Char.isWhitespace =
      inner.data.reverse) :
    cleanedString ("```json\n" ++ inner ++ "\n```") = inner := by
  have hdata : ("```json\n" ++ inner ++ "\n```").data =
      "```json\n".data ++ (inner.data ++ "\n```".data) := by
    rw [String.data_append, String.data_append, List.append_assoc]
  unfold cleanedString
  rw [hdata]
  have ht1 : ("```json\n".data ++
      (inner.data ++ "\n```".data)).dropWhile Char.isWhitespace =
      "```json\n".data ++ (inner.data ++ "\n```".data) :=
    dropWhile_append_of_head _ _ _ (by decide) (by decide)
  have hrev1 : ("```json\n".data ++
      (inner.data ++ "\n```".data)).reverse =
      "\n```".data.reverse ++
        (inner.data.reverse ++ "```json\n".data.reverse) := by
    rw [List.reverse_append, List.reverse_append, List.append_assoc]
  have ht2 : ("\n```".data.reverse ++
      (inner.data.reverse ++ "```json\n".data.reverse)).dropWhile
        Char.isWhitespace =
      "\n```".data.reverse ++
        (inner.data.reverse ++ "```json\n".data.reverse) :=
    dropWhile_append_of_head _ _ _ (by decide) (by decide)
  have htrim : jsTrim ("```json\n".data ++
      (inner.data ++ "\n```".data)) =
      "```json\n".data ++ (inner.data ++ "\n```".data) := by
    unfold jsTrim
    rw [ht1, hrev1, ht2, ← hrev1, List.reverse_reverse]
  rw [htrim]
  have hlead : stripLeadFence ("```json\n".data ++
      (inner.data ++ "\n```".data)) =
      inner.data ++ "\n```".data := by
    unfold stripLeadFence
    have hf : hasJsonFenceStart ("```json\n".data ++
        (inner.data ++ "\n```".data)) = true := rfl
    rw [if_pos hf]
    have hdrop : ("```json\n".data ++
        (inner.data ++ "\n```".data)).drop 7 =
        '\n' :: (inner.data ++ "\n```".data) := rfl
    rw [hdrop, List.dropWhile_cons, if_pos (by decide)]
    exact dropWhile_append_of_head _ _ _ h0 h1
  rw [hlead]
  have hrevLB : (inner.data ++ "\n```".data).reverse =
      '`' :: '`' :: '`' :: ('\n' :: inner.data.reverse) := by
    rw [List.reverse_append]
    rfl
  have htrail : stripTrailFence (inner.data ++ "\n```".data) =
      inner.data ++ ['\n'] := by
    unfold stripTrailFence
    rw [hrevLB]
    show ('\n' :: inner.data.reverse).reverse = inner.data ++ ['\n']
    rw [List.reverse_cons, List.reverse_reverse]
  rw [htrail]
  have ht3 : (inner.data ++ ['\n']).dropWhile Char.isWhitespace =
      inner.data ++ ['\n'] := dropWhile_append_of_head _ _ _ h0 h1
  have hrev2 : (inner.data ++ ['\n']).reverse =
      '\n' :: inner.data.reverse := by
    rw [List.reverse_append]
    rfl
  have htrim2 : jsTrim (inner.data ++ ['\n']) = inner.data := by
    unfold jsTrim
    rw [ht3, hrev2, List.dropWhile_cons, if_pos (by decide), h2,
      List.reverse_reverse]
  rw [htrim2]

/-- The cleanup pipeline leaves trimmed, fence-free content alone. -/
theorem cleanedString_id (inner : String)
    (h1 : inner.data.dropWhile Char.isWhitespace = inner.data)
    (h2 : inner.data.reverse.dropWhile Char.isWhitespace =
      inner.data.reverse)
    (h3 : hasJsonFenceStart inner.data = false)
    (h4 : endsWithTicks inner.data = false) :
    cleanedString inner = inner := by
  unfold cleanedString
  rw [jsTrim_of_fixed _ h1 h2, stripLeadFence_of_no_fence _ h3,
    stripTrailFence_of_not_ticks _ h4, jsTrim_of_fixed _ h1 h2]

/-- Claim C7 (amended): the parser strips a leading ```json fence marker
(the json tag is required — a bare leading fence is not stripped), a
trailing ``` marker, and surrounding whitespace, then parses the cleaned
text, returning the parsed sequence when the top-level value is one and
the empty sequence otherwise, with every outcome a value (no exception
escapes).  Wrapping trimmed, fence-free input in a tagged fence never
changes the result; the two examples from the spec hold. -/
theorem claim_C7 (inner : String) (h0 : inner.data ≠ [])
    (h1 : inner.data.dropWhile Char.isWhitespace = inner.data)
    (h2 : inner.data.reverse.dropWhile Char.isWhitespace =
      inner.data.reverse)
    (h3 : hasJsonFenceStart inner.data = false)
    (h4 : endsWithTicks inner.data = false) :
    cleanAndConvertJsonString ("```json\n" ++ inner ++ "\n```") =
      cleanAndConvertJsonString inner ∧
    cleanAndConvertJsonString "```json\n[\x7b\"word\":\"x\"\x7d]\n```" =
      [.obj [("word", .str "x")]] ∧
    cleanAndConvertJsonString "not json" = [] := by
  refine ⟨?_, rfl, rfl⟩
  unfold cleanAndConvertJsonString
  rw [cleanedString_wrap inner h0 h1 h2, cleanedString_id inner h1 h2 h3 h4]

/-- Claim C7 counterexample: a leading fence without the json tag is not
stripped — `"```\n[\"x\"]\n```"` parses to `[]` under the code, while the
spec-modelled cleanup (optionally tagged fence) yields `["x"]`. -/
theorem claim_C7_counterexample :
    cleanAndConvertJsonString "```\n[\"x\"]\n```" = [] ∧
    jsonParse (specCleanedString "```\n[\"x\"]\n```") =
      some (.arr [.str "x"]) ∧
    cleanedString "```\n[\"x\"]\n```" ≠
      specCleanedString "```\n[\"x\"]\n```" := by
  refine ⟨rfl, rfl, by decide⟩

/-- Witness for C7: the fence-wrap invariance applied to the example
payload of the spec. -/
theorem claim_C7_witness :
    cleanAndConvertJsonString ("```json\n" ++ "[\x7b\"word\":\"x\"\x7d]" ++
      "\n```") = cleanAndConvertJsonString "[\x7b\"word\":\"x\"\x7d]" ∧
    cleanAndConvertJsonString "[\x7b\"word\":\"x\"\x7d]" =
      [.obj [("word", .str "x")]] := by
  have h := claim_C7 "[\x7b\"word\":\"x\"\x7d]" (by decide) (by decide)
    (by decide) (by decide) (by decide)
  exact ⟨h.1, rfl⟩

end VocabServer
